import Mathlib

/-!
# QC–Audit case-review workflow: formal model

A shallow embedding of the case-review workflow implemented in `app3.py`.
Cases live in an in-memory table (here: a `List Case`, one element per row);
the workflow handlers mutate rows selected by a boolean mask, exactly as the
pandas `loc[mask, col] = value` statements in the source do.  Fallible
handlers return `Except WorkflowError Store`.
-/

set_option maxHeartbeats 1000000

namespace QCReview

/-- One case row: the identity/payload columns used by the workflow core
(`addressid`, `auditor`, `week`) plus the eight workflow columns added by
`init_db_from_qc_file` (app3.py lines 93–118). -/
structure Case where
  addressid : String
  auditor : String
  week : String
  assigned_to : String
  auditor_decision : String
  auditor_note : String
  appeal_text : String
  qc_final_judgment : String
  qc_note : String
  qc_name : String
  status : String
deriving DecidableEq, Repr

/-- The mutable case table (`st.session_state["cases_df"]`), one `Case` per row,
in insertion order. -/
abbrev Store := List Case

/-- A raw uploaded record: the source-file columns the workflow core reads
(`addressid`, `auditor`, `week`); the ~30 other payload columns are read-only
for the engine and are omitted. -/
structure RawCase where
  addressid : String
  auditor : String
  week : String
deriving DecidableEq, Repr

/-- Initialization of one row by `init_db_from_qc_file` (app3.py lines 91–121)
for an upload that does not already carry workflow columns: the workflow
columns get their defaults and `status` starts at `"Unassigned"`. -/
def initCase (r : RawCase) : Case :=
  { addressid := r.addressid
    auditor := r.auditor
    week := r.week
    assigned_to := ""
    auditor_decision := ""
    auditor_note := ""
    appeal_text := ""
    qc_final_judgment := ""
    qc_note := ""
    qc_name := ""
    status := "Unassigned" }

/-- Initialization by `init_db_from_qc_file` over a whole upload: one case per record. -/
def initStore (recs : List RawCase) : Store :=
  recs.map initCase

/-- Error taxonomy of the workflow core (spec §7): schema failure on load,
unknown `addressid`, validation failure (empty appeal message / assignee /
selection), and precondition failure (transition not allowed from the
current status or by the current actor). -/
inductive WorkflowError where
  | schema
  | unknownCase
  | validation
  | precondition
deriving DecidableEq, Repr

/-- The two options of the auditor decision radio (app3.py lines 639–644). -/
inductive Decision where
  | agree
  | appeal
deriving DecidableEq, Repr

/-- The two options of the QC final-judgment radio (app3.py lines 281–286). -/
inductive Judgment where
  | accept
  | reject
deriving DecidableEq, Repr

/-- The string written into `qc_final_judgment` for each judgment option. -/
def Judgment.str : Judgment → String
  | .accept => "Accept Appeal"
  | .reject => "Reject Appeal"

/-- The Python `str.strip()` operation: remove leading and trailing whitespace.  Defined
over the underlying character list (structural recursion) so that the kernel
can evaluate it on concrete strings. -/
def pyStrip (s : String) : String :=
  ⟨((s.data.dropWhile Char.isWhitespace).reverse.dropWhile Char.isWhitespace).reverse⟩

/-- Bulk self-assign (app3.py lines 213–217): two sequential masked writes,
first `assigned_to ← auditor` on the rows with `status == "Unassigned"`, then
`status ← "Assigned"` on the rows with `status == "Unassigned"` (the second
mask is recomputed on the already-updated table, as in the source). -/
def batchAssign (s : Store) : Store :=
  let s1 := s.map fun c =>
    if c.status = "Unassigned" then { c with assigned_to := c.auditor } else c
  s1.map fun c =>
    if c.status = "Unassigned" then { c with status := "Assigned" } else c

/-- Manual assignment (app3.py lines 226–236): reject an all-whitespace target
name or an empty selection; otherwise write `assigned_to ← target.strip()` and
`status ← "Assigned"` on every row whose `addressid` is in the selection. -/
def manualAssign (s : Store) (target : String) (ids : List String) :
    Except WorkflowError Store :=
  if pyStrip target = "" then .error .validation
  else if ids = [] then .error .validation
  else
    let s1 := s.map fun c =>
      if ids.contains c.addressid then { c with assigned_to := pyStrip target } else c
    .ok (s1.map fun c =>
      if ids.contains c.addressid then { c with status := "Assigned" } else c)

/-- The auditor decision path (app3.py lines 442–688).  The UI looks the case
up by `addressid`, only offers the decision controls when the case is assigned
to the acting auditor and its status is neither `"Appealed"` nor `"Completed"`
(lines 442, 614, 621, 635), rejects an appeal whose message strips to empty
(lines 664–666), and otherwise performs the masked writes of lines 668–681 on
every row whose `addressid` matches. -/
def auditorDecide (s : Store) (actor id : String) (d : Decision) (msg : String) :
    Except WorkflowError Store :=
  match s.find? (fun c => c.addressid == id) with
  | none => .error .unknownCase
  | some c =>
    if c.assigned_to ≠ actor then .error .precondition
    else if c.status = "Appealed" ∨ c.status = "Completed" then .error .precondition
    else
      match d with
      | .agree =>
          .ok (s.map fun x =>
            if x.addressid == id then
              { x with auditor_decision := "Agree", auditor_note := msg,
                       appeal_text := "", status := "Completed",
                       qc_final_judgment := "Auditor agreed with QC", qc_note := "" }
            else x)
      | .appeal =>
          if pyStrip msg = "" then .error .validation
          else
            .ok (s.map fun x =>
              if x.addressid == id then
                { x with auditor_decision := "Appeal", appeal_text := msg,
                         auditor_note := "", status := "Appealed" }
              else x)

/-- Total wrapper around `auditorDecide`: the store that results from a
decision attempt, unchanged when the attempt is rejected (a rejected handler
performs no write; app3.py lines 664–666 stop before any mutation). -/
def decideApply (s : Store) (actor id : String) (d : Decision) (msg : String) : Store :=
  match auditorDecide s actor id d msg with
  | .ok s' => s'
  | .error _ => s

/-- QC final judgment (app3.py lines 256–304): the UI only offers cases with
`status == "Appealed"` (line 245), then the handler writes
`qc_final_judgment ← judgment`, `qc_note ← note`, `status ← "Completed"` and,
when the sidebar identity strips to a non-empty string, `qc_name ← identity
stripped`, on every row whose `addressid` matches. -/
def qcJudge (s : Store) (id : String) (j : Judgment) (note qcUser : String) :
    Except WorkflowError Store :=
  match s.find? (fun c => c.status == "Appealed" && c.addressid == id) with
  | none => .error .precondition
  | some _ =>
      .ok (s.map fun x =>
        if x.addressid == id then
          { x with qc_final_judgment := j.str, qc_note := note,
                   status := "Completed",
                   qc_name := if pyStrip qcUser ≠ "" then pyStrip qcUser else x.qc_name }
        else x)

/-- One engine transition on the store.  Each constructor carries exactly the
conditions under which the corresponding handler can fire in the app: bulk
self-assign is a bare button (line 213); manual assignment only offers
addressids of currently-`Unassigned` cases in its multiselect (lines 222–225);
the auditor decision path picks the actor from the non-empty `assigned_to`
values (lines 428–440); the QC judgment handler carries its own precondition. -/
inductive Step : Store → Store → Prop where
  | batch (s : Store) : Step s (batchAssign s)
  | manual (s : Store) (target : String) (ids : List String) (s' : Store)
      (hsel : ∀ id ∈ ids, ∃ c ∈ s, c.addressid = id ∧ c.status = "Unassigned")
      (hok : manualAssign s target ids = .ok s') : Step s s'
  | decide (s : Store) (actor id : String) (d : Decision) (msg : String) (s' : Store)
      (hactor : actor ≠ "")
      (hok : auditorDecide s actor id d msg = .ok s') : Step s s'
  | qc (s : Store) (id : String) (j : Judgment) (note qcUser : String) (s' : Store)
      (hok : qcJudge s id j note qcUser = .ok s') : Step s s'

/-- Reachability: any finite sequence of engine transitions. -/
abbrev Reachable (s0 s : Store) : Prop :=
  Relation.ReflTransGen Step s0 s

/-- The inductive store invariant backing C8: every case keeps a non-empty
original `auditor` value, `addressid`s stay pairwise distinct (the spec's
uniqueness invariant), and every case that has left `"Unassigned"` carries a
non-empty `assigned_to`. -/
def StoreInv (s : Store) : Prop :=
  (∀ c ∈ s, c.auditor ≠ "") ∧
  ((s.map fun c => c.addressid).Nodup) ∧
  (∀ c ∈ s, c.status ≠ "Unassigned" → c.assigned_to ≠ "")

/-! ## Timer Gate (app3.py lines 479–507)

Session state keeps one `start_time_{auditor}_{selected_id}` entry per
(auditor, case) pair; the entry is created the first time the pair is viewed
and never overwritten afterwards.  All times are whole seconds. -/

/-- One session-state timer entry: `start_time_{auditor}_{caseId} = start`. -/
structure TimerEntry where
  auditor : String
  caseId : String
  start : Nat
deriving DecidableEq, Repr

/-- The session-state timer map. -/
abbrev TimerState := List TimerEntry

/-- Lookup of `start_time_{auditor}_{caseId}` in session state. -/
def timerLookup (ts : TimerState) (a id : String) : Option Nat :=
  (ts.find? fun e => e.auditor == a && e.caseId == id).map (·.start)

/-- Viewing a case (app3.py lines 486–488): if the timer key is absent it is
set to the current time, otherwise the state is untouched. -/
def viewCase (ts : TimerState) (a id : String) (now : Nat) : TimerState :=
  match timerLookup ts a id with
  | some _ => ts
  | none => ⟨a, id, now⟩ :: ts

/-- The constant `TOTAL_ALLOWED = 4 * 60` seconds (app3.py line 493). -/
def TOTAL_ALLOWED : Nat := 4 * 60

/-- The quantity `remaining_secs = int(TOTAL_ALLOWED - elapsed_secs)` (app3.py line 494),
which may be negative once the window has expired. -/
def remainingSecs (start now : Nat) : Int :=
  (TOTAL_ALLOWED : Int) - ((now - start : Nat) : Int)

/-- The flag `time_over = remaining_secs <= 0` (app3.py line 495). -/
def timeOver (start now : Nat) : Bool :=
  remainingSecs start now ≤ 0

/-- The remaining time the session surfaces: the countdown of line 502 while
the window is open, and no time left (`"Time over"`, line 499) afterwards. -/
def timeRemaining (start now : Nat) : Int :=
  if timeOver start now then 0 else remainingSecs start now

/-! ## Aggregation views (app3.py lines 347–401) -/

/-- Count of rows with the given `status` (app3.py lines 356–361). -/
def statusCount (cases : List Case) (st : String) : Nat :=
  cases.countP fun c => c.status == st

/-- Count of rows with the given `qc_final_judgment` (app3.py lines 374–376). -/
def judgmentCount (cases : List Case) (j : String) : Nat :=
  cases.countP fun c => c.qc_final_judgment == j

/-- The three quality KPIs of the weekly dashboard. -/
structure KPIs where
  appeal_rate : ℚ
  completion_rate : ℚ
  appeal_accept_rate : ℚ
deriving DecidableEq, Repr

/-- Quality KPIs (app3.py lines 355–385): `appeal_rate = appealed/total*100` and
`completion_rate = completed/total*100` when `total` is non-zero else `0`;
`appeal_accept_rate = accepted/(accepted+rejected)*100` when
`accepted+rejected` is non-zero else `0`; `accepted`/`rejected` are counted
from `qc_final_judgment`.  Modelled over exact rationals. -/
def quality_kpis (cases : List Case) : KPIs :=
  let total := cases.length
  let appealed := statusCount cases "Appealed"
  let completed := statusCount cases "Completed"
  let accepted := judgmentCount cases "Accept Appeal"
  let rejected := judgmentCount cases "Reject Appeal"
  { appeal_rate := if total = 0 then 0 else (appealed : ℚ) / (total : ℚ) * 100
    completion_rate := if total = 0 then 0 else (completed : ℚ) / (total : ℚ) * 100
    appeal_accept_rate :=
      if accepted + rejected = 0 then 0
      else (accepted : ℚ) / ((accepted : ℚ) + (rejected : ℚ)) * 100 }

/-! ## Concrete fixtures used by witnesses and counterexamples -/

/-- A one-record upload whose `auditor` column is the empty string. -/
def recNoAuditor : RawCase := ⟨"A1", "", "w1"⟩

/-- A three-record upload matching spec §8 Scenario 1. -/
def demoRecs : List RawCase :=
  [⟨"A1", "Amy", "w1"⟩, ⟨"A2", "Bob", "w1"⟩, ⟨"A3", "Amy", "w2"⟩]

/-- The demo store after initialization and bulk self-assignment. -/
def demoAssigned : Store := batchAssign (initStore demoRecs)

/-- The demo store after Amy appeals case `A1` with message `"wrong geocode"`
(spec §8 Scenario 2). -/
def demoAppealed : Store :=
  decideApply demoAssigned "Amy" "A1" .appeal "wrong geocode"

/-- A single already-completed case, assigned to Amy. -/
def completedCase : Case :=
  { addressid := "A1", auditor := "Amy", week := "w1", assigned_to := "Amy",
    auditor_decision := "Agree", auditor_note := "ok", appeal_text := "",
    qc_final_judgment := "Auditor agreed with QC", qc_note := "", qc_name := "",
    status := "Completed" }

/-- A store holding only `completedCase`. -/
def completedStore : Store := [completedCase]

/-- A single assigned case, assigned to Amy, still undecided. -/
def assignedCase : Case :=
  { addressid := "A1", auditor := "Amy", week := "w1", assigned_to := "Amy",
    auditor_decision := "", auditor_note := "", appeal_text := "",
    qc_final_judgment := "", qc_note := "", qc_name := "",
    status := "Assigned" }

/-- A store holding only `assignedCase`. -/
def assignedStore : Store := [assignedCase]

/-- A single appealed case, assigned to Amy, awaiting QC judgment. -/
def appealedCase : Case :=
  { addressid := "A1", auditor := "Amy", week := "w1", assigned_to := "Amy",
    auditor_decision := "Appeal", auditor_note := "", appeal_text := "bad geocode",
    qc_final_judgment := "", qc_note := "", qc_name := "",
    status := "Appealed" }

/-- A store holding only `appealedCase`. -/
def appealedStore : Store := [appealedCase]

/-- The row `appealedCase` after a QC accept-appeal judgment saved with note
`"note"` and a whitespace-only acting identity. -/
def acceptedCase : Case :=
  { appealedCase with qc_final_judgment := "Accept Appeal", qc_note := "note",
                      status := "Completed" }

/-- The `A1` row of `demoAppealed`: the case of Amy after her appeal. -/
def demoAppealedCase : Case :=
  { addressid := "A1", auditor := "Amy", week := "w1", assigned_to := "Amy",
    auditor_decision := "Appeal", auditor_note := "", appeal_text := "wrong geocode",
    qc_final_judgment := "", qc_note := "", qc_name := "", status := "Appealed" }

/-- The `A1` row of `demoAssigned`: the case of Amy right after bulk assignment. -/
def demoAssignedCase : Case :=
  { addressid := "A1", auditor := "Amy", week := "w1", assigned_to := "Amy",
    auditor_decision := "", auditor_note := "", appeal_text := "",
    qc_final_judgment := "", qc_note := "", qc_name := "", status := "Assigned" }

/-! ## Helper lemmas -/

/-- Stripping the empty string yields the empty string, so a message that
strips to something non-empty is itself non-empty. -/
theorem ne_empty_of_pyStrip_ne_empty {msg : String} (h : pyStrip msg ≠ "") :
    msg ≠ "" := by
  intro hm
  subst hm
  exact h rfl

/-- An error result of `auditorDecide` leaves the store unchanged. -/
theorem decideApply_eq_of_error {s : Store} {actor id : String} {d : Decision}
    {msg : String} {e : WorkflowError}
    (h : auditorDecide s actor id d msg = .error e) :
    decideApply s actor id d msg = s := by
  unfold decideApply
  rw [h]

/-- In a store with pairwise-distinct `addressid`s (the spec's uniqueness
invariant), two member cases with the same `addressid` are the same case. -/
theorem eq_of_mem_of_nodup_ids {s : Store}
    (hnd : (s.map fun c => c.addressid).Nodup) {a b : Case}
    (ha : a ∈ s) (hb : b ∈ s) (hab : a.addressid = b.addressid) : a = b :=
  List.inj_on_of_nodup_map hnd ha hb hab

/-- The two sequential masked writes of bulk self-assignment collapse to a
single per-row update. -/
theorem batchAssign_eq_map (s : Store) :
    batchAssign s = s.map fun c =>
      if c.status = "Unassigned" then
        { c with assigned_to := c.auditor, status := "Assigned" }
      else c := by
  unfold batchAssign
  rw [List.map_map]
  apply List.map_congr_left
  intro c _
  by_cases hc : c.status = "Unassigned" <;> simp [Function.comp, hc]

/-- Inversion of a successful manual assignment: the target name strips to a
non-empty string and every selected row is assigned and marked. -/
theorem manualAssign_ok {s : Store} {target : String} {ids : List String}
    {s' : Store} (h : manualAssign s target ids = .ok s') :
    pyStrip target ≠ "" ∧
    s' = s.map fun c =>
      if ids.contains c.addressid then
        { c with assigned_to := pyStrip target, status := "Assigned" }
      else c := by
  unfold manualAssign at h
  split at h
  · exact absurd h (by simp)
  · split at h
    · exact absurd h (by simp)
    · rename_i ht _
      simp only [Except.ok.injEq] at h
      refine ⟨ht, ?_⟩
      rw [← h, List.map_map]
      apply List.map_congr_left
      intro c _
      by_cases hc : c.addressid ∈ ids <;> simp [Function.comp, hc]

/-- Inversion of a successful auditor decision: the case looked up by id is
assigned to the actor and actionable, and the store is the corresponding
masked update. -/
theorem auditorDecide_ok {s : Store} {actor id : String} {d : Decision}
    {msg : String} {s' : Store} (h : auditorDecide s actor id d msg = .ok s') :
    ∃ c, s.find? (fun x => x.addressid == id) = some c ∧
      c.assigned_to = actor ∧ c.status ≠ "Appealed" ∧ c.status ≠ "Completed" ∧
      ((d = .agree ∧ s' = s.map fun x =>
          if x.addressid == id then
            { x with auditor_decision := "Agree", auditor_note := msg,
                     appeal_text := "", status := "Completed",
                     qc_final_judgment := "Auditor agreed with QC", qc_note := "" }
          else x) ∨
       (d = .appeal ∧ pyStrip msg ≠ "" ∧ s' = s.map fun x =>
          if x.addressid == id then
            { x with auditor_decision := "Appeal", appeal_text := msg,
                     auditor_note := "", status := "Appealed" }
          else x)) := by
  unfold auditorDecide at h
  split at h
  · exact absurd h (by simp)
  · rename_i c hf
    split at h
    · exact absurd h (by simp)
    · rename_i ha
      split at h
      · exact absurd h (by simp)
      · rename_i hst
        push_neg at hst
        rw [not_ne_iff] at ha
        cases d with
        | agree =>
            dsimp only at h
            simp only [Except.ok.injEq] at h
            exact ⟨c, hf, ha, hst.1, hst.2, .inl ⟨rfl, h.symm⟩⟩
        | appeal =>
            dsimp only at h
            split at h
            · exact absurd h (by simp)
            · rename_i hm
              simp only [Except.ok.injEq] at h
              exact ⟨c, hf, ha, hst.1, hst.2, .inr ⟨rfl, hm, h.symm⟩⟩

/-- Inversion of a successful QC final judgment: some case with the given id
is `"Appealed"`, and the store is the corresponding masked update. -/
theorem qcJudge_ok {s : Store} {id note qcUser : String} {j : Judgment}
    {s' : Store} (h : qcJudge s id j note qcUser = .ok s') :
    ∃ c, s.find? (fun x => x.status == "Appealed" && x.addressid == id) = some c ∧
      s' = s.map fun x =>
        if x.addressid == id then
          { x with qc_final_judgment := j.str, qc_note := note,
                   status := "Completed",
                   qc_name := if pyStrip qcUser ≠ "" then pyStrip qcUser else x.qc_name }
        else x := by
  unfold qcJudge at h
  split at h
  · exact absurd h (by simp)
  · rename_i c hf
    simp only [Except.ok.injEq] at h
    exact ⟨c, hf, h.symm⟩

/-- One engine transition preserves the Appealed-case invariant: after the
step, every `"Appealed"` case still has a non-empty `appeal_text` and
`auditor_decision = "Appeal"`. -/
theorem step_preserves_appealed_inv {s s' : Store} (hstep : Step s s')
    (ih : ∀ c ∈ s, c.status = "Appealed" →
      c.appeal_text ≠ "" ∧ c.auditor_decision = "Appeal") :
    ∀ c ∈ s', c.status = "Appealed" →
      c.appeal_text ≠ "" ∧ c.auditor_decision = "Appeal" := by
  cases hstep with
  | batch =>
      rw [batchAssign_eq_map]
      intro c hc hst
      obtain ⟨y, hy, rfl⟩ := List.mem_map.mp hc
      by_cases hys : y.status = "Unassigned"
      · rw [if_pos hys] at hst
        exact absurd hst (show ("Assigned" : String) ≠ "Appealed" by decide)
      · rw [if_neg hys] at hst ⊢
        exact ih y hy hst
  | manual target ids s' hsel hok =>
      obtain ⟨ht, rfl⟩ := manualAssign_ok hok
      intro c hc hst
      obtain ⟨y, hy, rfl⟩ := List.mem_map.mp hc
      by_cases hm : ids.contains y.addressid = true
      · rw [if_pos hm] at hst
        exact absurd hst (show ("Assigned" : String) ≠ "Appealed" by decide)
      · rw [if_neg hm] at hst ⊢
        exact ih y hy hst
  | decide actor id d msg s' hactor hok =>
      obtain ⟨c0, hf, ha, h1, h2, hcases⟩ := auditorDecide_ok hok
      rcases hcases with ⟨-, rfl⟩ | ⟨-, hmsg, rfl⟩
      · intro c hc hst
        obtain ⟨y, hy, rfl⟩ := List.mem_map.mp hc
        by_cases hm : (y.addressid == id) = true
        · rw [if_pos hm] at hst
          exact absurd hst (show ("Completed" : String) ≠ "Appealed" by decide)
        · rw [if_neg hm] at hst ⊢
          exact ih y hy hst
      · intro c hc hst
        obtain ⟨y, hy, rfl⟩ := List.mem_map.mp hc
        by_cases hm : (y.addressid == id) = true
        · rw [if_pos hm]
          exact ⟨ne_empty_of_pyStrip_ne_empty hmsg, rfl⟩
        · rw [if_neg hm] at hst ⊢
          exact ih y hy hst
  | qc id j note qcUser s' hok =>
      obtain ⟨c0, hf, rfl⟩ := qcJudge_ok hok
      intro c hc hst
      obtain ⟨y, hy, rfl⟩ := List.mem_map.mp hc
      by_cases hm : (y.addressid == id) = true
      · rw [if_pos hm] at hst
        exact absurd hst (show ("Completed" : String) ≠ "Appealed" by decide)
      · rw [if_neg hm] at hst ⊢
        exact ih y hy hst

/-- A per-row update that preserves `addressid` and `auditor` preserves the
first two components of `StoreInv`; the assignment component is delegated to
a per-row obligation. -/
theorem storeInv_map_aux {s : Store} {f : Case → Case} (inv : StoreInv s)
    (hid : ∀ c, (f c).addressid = c.addressid)
    (haud : ∀ c, (f c).auditor = c.auditor)
    (hassigned : ∀ c ∈ s, (f c).status ≠ "Unassigned" → (f c).assigned_to ≠ "") :
    StoreInv (s.map f) := by
  refine ⟨?_, ?_, ?_⟩
  · intro c hc
    obtain ⟨y, hy, rfl⟩ := List.mem_map.mp hc
    rw [haud]
    exact inv.1 y hy
  · rw [List.map_map]
    have he : ((fun c => c.addressid) ∘ f) = fun c => c.addressid :=
      funext fun c => hid c
    rw [he]
    exact inv.2.1
  · intro c hc
    obtain ⟨y, hy, rfl⟩ := List.mem_map.mp hc
    exact hassigned y hy

/-- Every engine transition preserves `StoreInv`. -/
theorem step_preserves_storeInv {s s' : Store} (hstep : Step s s')
    (inv : StoreInv s) : StoreInv s' := by
  cases hstep with
  | batch =>
      rw [batchAssign_eq_map]
      refine storeInv_map_aux inv ?_ ?_ ?_
      · intro c
        by_cases hc : c.status = "Unassigned" <;> simp [hc]
      · intro c
        by_cases hc : c.status = "Unassigned" <;> simp [hc]
      · intro y hy
        by_cases hys : y.status = "Unassigned"
        · rw [if_pos hys]
          intro _
          exact inv.1 y hy
        · rw [if_neg hys]
          exact inv.2.2 y hy
  | manual target ids s' hsel hok =>
      obtain ⟨ht, rfl⟩ := manualAssign_ok hok
      refine storeInv_map_aux inv ?_ ?_ ?_
      · intro c
        by_cases hc : c.addressid ∈ ids <;> simp [hc]
      · intro c
        by_cases hc : c.addressid ∈ ids <;> simp [hc]
      · intro y hy
        by_cases hym : ids.contains y.addressid = true
        · rw [if_pos hym]
          intro _
          exact ht
        · rw [if_neg hym]
          exact inv.2.2 y hy
  | decide actor id d msg s' hactor hok =>
      obtain ⟨c0, hf, ha, h1, h2, hcases⟩ := auditorDecide_ok hok
      have hc0mem : c0 ∈ s := List.mem_of_find?_eq_some hf
      have hc0id : c0.addressid = id := by simpa using List.find?_some hf
      rcases hcases with ⟨-, rfl⟩ | ⟨-, hmsg, rfl⟩
      · refine storeInv_map_aux inv ?_ ?_ ?_
        · intro c
          by_cases hc : (c.addressid == id) = true <;> simp [hc]
        · intro c
          by_cases hc : (c.addressid == id) = true <;> simp [hc]
        · intro y hy
          by_cases hym : (y.addressid == id) = true
          · rw [if_pos hym]
            intro _
            have hyeq : y = c0 :=
              eq_of_mem_of_nodup_ids inv.2.1 hy hc0mem (by rw [hc0id]; simpa using hym)
            show y.assigned_to ≠ ""
            rw [hyeq, ha]
            exact hactor
          · rw [if_neg hym]
            exact inv.2.2 y hy
      · refine storeInv_map_aux inv ?_ ?_ ?_
        · intro c
          by_cases hc : (c.addressid == id) = true <;> simp [hc]
        · intro c
          by_cases hc : (c.addressid == id) = true <;> simp [hc]
        · intro y hy
          by_cases hym : (y.addressid == id) = true
          · rw [if_pos hym]
            intro _
            have hyeq : y = c0 :=
              eq_of_mem_of_nodup_ids inv.2.1 hy hc0mem (by rw [hc0id]; simpa using hym)
            show y.assigned_to ≠ ""
            rw [hyeq, ha]
            exact hactor
          · rw [if_neg hym]
            exact inv.2.2 y hy
  | qc id j note qcUser s' hok =>
      obtain ⟨c0, hf, rfl⟩ := qcJudge_ok hok
      have hc0mem : c0 ∈ s := List.mem_of_find?_eq_some hf
      have hp := List.find?_some hf
      rw [Bool.and_eq_true] at hp
      have hc0st : c0.status = "Appealed" := by simpa using hp.1
      have hc0id : c0.addressid = id := by simpa using hp.2
      refine storeInv_map_aux inv ?_ ?_ ?_
      · intro c
        by_cases hc : (c.addressid == id) = true <;> simp [hc]
      · intro c
        by_cases hc : (c.addressid == id) = true <;> simp [hc]
      · intro y hy
        by_cases hym : (y.addressid == id) = true
        · rw [if_pos hym]
          intro _
          have hyeq : y = c0 :=
            eq_of_mem_of_nodup_ids inv.2.1 hy hc0mem (by rw [hc0id]; simpa using hym)
          show y.assigned_to ≠ ""
          rw [hyeq]
          exact inv.2.2 c0 hc0mem (by rw [hc0st]; decide)
        · rw [if_neg hym]
          exact inv.2.2 y hy

/-! ## Claim theorems -/

/-- C1.  In every store reachable from an initialized store by engine
transitions, every case with status `"Appealed"` has a non-empty
`appeal_text` and `auditor_decision = "Appeal"`. -/
theorem appealed_has_nonempty_appeal (recs : List RawCase) (s : Store)
    (h : Reachable (initStore recs) s) :
    ∀ c ∈ s, c.status = "Appealed" →
      c.appeal_text ≠ "" ∧ c.auditor_decision = "Appeal" := by
  induction h with
  | refl =>
      intro c hc hst
      obtain ⟨r, hr, rfl⟩ := List.mem_map.mp hc
      simp [initCase] at hst
  | tail h1 hstep ih => exact step_preserves_appealed_inv hstep ih

/-- Witness for C1: the store reached by initializing three records, bulk
self-assigning, and letting Amy appeal case `A1`. -/
theorem appealed_has_nonempty_appeal_witness :
    demoAppealedCase.appeal_text ≠ "" ∧ demoAppealedCase.auditor_decision = "Appeal" :=
  appealed_has_nonempty_appeal demoRecs demoAppealed
    (Relation.ReflTransGen.tail
      (Relation.ReflTransGen.single (Step.batch (initStore demoRecs)))
      (Step.decide demoAssigned "Amy" "A1" .appeal "wrong geocode" demoAppealed
        (by decide) rfl))
    demoAppealedCase (by decide) (by decide)

/-- C2.  For every case with status `"Assigned"` whose `assigned_to` equals the
acting auditor, the auditor-agree transition with comment `comment` sets
`auditor_decision` to `"Agree"`, `auditor_note` to the comment, `appeal_text`
to `""`, `qc_final_judgment` to `"Auditor agreed with QC"`, `qc_note` to `""`
and `status` to `"Completed"`, and leaves every other row unchanged. -/
theorem agree_sets_fields_and_completes (s : Store) (actor id comment : String)
    (c : Case) (hf : s.find? (fun x => x.addressid == id) = some c)
    (ha : c.assigned_to = actor) (hs : c.status = "Assigned") :
    auditorDecide s actor id .agree comment =
      .ok (s.map fun x =>
        if x.addressid == id then
          { x with auditor_decision := "Agree", auditor_note := comment,
                   appeal_text := "", status := "Completed",
                   qc_final_judgment := "Auditor agreed with QC", qc_note := "" }
        else x) := by
  unfold auditorDecide
  rw [hf]
  simp [ha, hs]

/-- Witness for C2 on a concrete one-case store. -/
theorem agree_sets_fields_and_completes_witness :
    auditorDecide assignedStore "Amy" "A1" .agree "fine" =
      .ok (assignedStore.map fun x =>
        if x.addressid == "A1" then
          { x with auditor_decision := "Agree", auditor_note := "fine",
                   appeal_text := "", status := "Completed",
                   qc_final_judgment := "Auditor agreed with QC", qc_note := "" }
        else x) :=
  agree_sets_fields_and_completes assignedStore "Amy" "A1" "fine" assignedCase
    rfl rfl rfl

/-- C3 (counterexample to the claim as stated): the message `" "` is non-empty,
yet the appeal transition on an eligible assigned case rejects it with a
`ValidationError` instead of recording the appeal, because the handler strips
whitespace before testing emptiness. -/
theorem appeal_whitespace_message_rejected :
    (" " : String) ≠ "" ∧
    auditorDecide assignedStore "Amy" "A1" .appeal " " = .error .validation :=
  ⟨by decide, rfl⟩

/-- C3 (amended).  For every case with status `"Assigned"` whose `assigned_to`
equals the acting auditor, the auditor-appeal transition with a message that is
non-empty after stripping whitespace sets `auditor_decision` to `"Appeal"`,
`appeal_text` to the message, `auditor_note` to `""` and `status` to
`"Appealed"`, and leaves every other row unchanged. -/
theorem appeal_sets_fields_and_appeals (s : Store) (actor id msg : String)
    (c : Case) (hf : s.find? (fun x => x.addressid == id) = some c)
    (ha : c.assigned_to = actor) (hs : c.status = "Assigned")
    (hm : pyStrip msg ≠ "") :
    auditorDecide s actor id .appeal msg =
      .ok (s.map fun x =>
        if x.addressid == id then
          { x with auditor_decision := "Appeal", appeal_text := msg,
                   auditor_note := "", status := "Appealed" }
        else x) := by
  unfold auditorDecide
  rw [hf]
  simp [ha, hs, hm]

/-- Witness for the amended C3: spec §8 Scenario 2. -/
theorem appeal_sets_fields_and_appeals_witness :
    auditorDecide assignedStore "Amy" "A1" .appeal "wrong geocode" =
      .ok (assignedStore.map fun x =>
        if x.addressid == "A1" then
          { x with auditor_decision := "Appeal", appeal_text := "wrong geocode",
                   auditor_note := "", status := "Appealed" }
        else x) :=
  appeal_sets_fields_and_appeals assignedStore "Amy" "A1" "wrong geocode"
    assignedCase rfl rfl rfl (by decide)

/-- C4.  An auditor-appeal submission with an empty message never changes the
store and is always rejected; when the targeted case exists, is assigned to
the acting auditor and is still actionable (neither `"Appealed"` nor
`"Completed"`), the rejection is specifically a `ValidationError`. -/
theorem empty_appeal_rejected (s : Store) (actor id msg : String)
    (hm : msg = "") :
    decideApply s actor id .appeal msg = s ∧
    (∃ e, auditorDecide s actor id .appeal msg = .error e) ∧
    (∀ c, s.find? (fun x => x.addressid == id) = some c → c.assigned_to = actor →
      c.status ≠ "Appealed" → c.status ≠ "Completed" →
      auditorDecide s actor id .appeal msg = .error .validation) := by
  subst hm
  have hstrip : pyStrip "" = "" := rfl
  have key : ∃ e, auditorDecide s actor id .appeal "" = .error e := by
    unfold auditorDecide
    cases hf : s.find? (fun x => x.addressid == id) with
    | none => exact ⟨.unknownCase, rfl⟩
    | some c =>
        by_cases ha : c.assigned_to ≠ actor
        · exact ⟨.precondition, by simp [ha]⟩
        · by_cases hst : c.status = "Appealed" ∨ c.status = "Completed"
          · exact ⟨.precondition, by simp [ha, hst]⟩
          · exact ⟨.validation, by simp [ha, hst, hstrip]⟩
  obtain ⟨e, he⟩ := key
  refine ⟨decideApply_eq_of_error he, ⟨e, he⟩, ?_⟩
  intro c hf ha h1 h2
  unfold auditorDecide
  rw [hf]
  simp [ha, h1, h2, hstrip]

/-- Witness for C4: spec §8 Scenario 5 on a concrete eligible case. -/
theorem empty_appeal_rejected_witness :
    auditorDecide assignedStore "Amy" "A1" .appeal "" = .error .validation :=
  (empty_appeal_rejected assignedStore "Amy" "A1" "" rfl).2.2 assignedCase
    rfl rfl (by decide) (by decide)

/-- C6 (counterexample to the claim as stated): with acting QC identity `" "`
(non-empty), the final-judgment handler leaves `qc_name` unchanged (here `""`)
instead of setting it to the identity, because it strips the identity before
testing it. -/
theorem qc_judgment_whitespace_identity :
    (" " : String) ≠ "" ∧
    qcJudge appealedStore "A1" .accept "note" " " = .ok [acceptedCase] ∧
    acceptedCase.qc_name = "" :=
  ⟨by decide, rfl, rfl⟩

/-- C6 (amended).  For every case with status `"Appealed"` and every judgment
`j ∈ {"Accept Appeal", "Reject Appeal"}`, the QC final-judgment transition
sets `qc_final_judgment` to `j`, `qc_note` to the supplied note, `status` to
`"Completed"`, and `qc_name` to the whitespace-stripped acting QC identity
when that stripped identity is non-empty (`qc_name` unchanged otherwise). -/
theorem qc_judgment_completes (s : Store) (id note qcUser : String)
    (j : Judgment) (c : Case)
    (hf : s.find? (fun x => x.status == "Appealed" && x.addressid == id) = some c) :
    (j.str = "Accept Appeal" ∨ j.str = "Reject Appeal") ∧
    qcJudge s id j note qcUser =
      .ok (s.map fun x =>
        if x.addressid == id then
          { x with qc_final_judgment := j.str, qc_note := note,
                   status := "Completed",
                   qc_name := if pyStrip qcUser ≠ "" then pyStrip qcUser else x.qc_name }
        else x) := by
  constructor
  · cases j <;> simp [Judgment.str]
  · unfold qcJudge
    rw [hf]

/-- Witness for the amended C6: spec §8 Scenario 3. -/
theorem qc_judgment_completes_witness :
    (Judgment.accept.str = "Accept Appeal" ∨ Judgment.accept.str = "Reject Appeal") ∧
    qcJudge appealedStore "A1" .accept "good catch" "Prashanth" =
      .ok (appealedStore.map fun x =>
        if x.addressid == "A1" then
          { x with qc_final_judgment := Judgment.accept.str, qc_note := "good catch",
                   status := "Completed",
                   qc_name := if pyStrip "Prashanth" ≠ "" then pyStrip "Prashanth" else x.qc_name }
        else x) :=
  qc_judgment_completes appealedStore "A1" "good catch" "Prashanth" .accept
    appealedCase rfl

/-- C7.  Bulk self-assignment: every row with status `"Unassigned"` gets
`assigned_to ← auditor` (the original column) and `status ← "Assigned"`, and
every row whose status is not `"Unassigned"` is unchanged. -/
theorem batch_assign_effects (s : Store) (i : Nat) :
    (batchAssign s)[i]? = (s[i]?).map fun c =>
      if c.status = "Unassigned" then
        { c with assigned_to := c.auditor, status := "Assigned" }
      else c := by
  unfold batchAssign
  simp only [List.getElem?_map]
  cases h : s[i]? with
  | none => rfl
  | some c =>
      by_cases hc : c.status = "Unassigned" <;> simp [hc]

/-- C9.  The decision window is fixed at 240 seconds; the surfaced remaining
time is `max 0 (240 − (now − start))`; the start time is set the first time an
auditor views a case in a session and is not reset on revisits. -/
theorem timer_gate_spec (ts : TimerState) (a id : String) (now start : Nat)
    (h : start ≤ now) :
    TOTAL_ALLOWED = 240 ∧
    timeRemaining start now = max 0 (240 - ((now : Int) - (start : Int))) ∧
    (timerLookup ts a id = none →
      timerLookup (viewCase ts a id now) a id = some now) ∧
    (∀ t0, timerLookup ts a id = some t0 → viewCase ts a id now = ts) := by
  refine ⟨rfl, ?_, ?_, ?_⟩
  · have hcast : ((now - start : Nat) : Int) = (now : Int) - (start : Int) := by
      omega
    unfold timeRemaining timeOver remainingSecs TOTAL_ALLOWED
    rw [hcast]
    split <;> rename_i hsplit <;> simp only [decide_eq_true_eq] at hsplit <;> omega
  · intro hn
    unfold viewCase
    rw [hn]
    simp [timerLookup, List.find?_cons]
  · intro t0 ht
    simp [viewCase, ht]

/-- Witness for C9 at `start = 40`, `now = 100`. -/
theorem timer_gate_spec_witness :
    timeRemaining 40 100 = max 0 (240 - ((100 : Int) - (40 : Int))) :=
  (timer_gate_spec [] "Amy" "A1" 100 40 (by decide)).2.1

/-- C10.  `quality_kpis`: the appeal-accept rate is
`accepted / (accepted + rejected) * 100` with `accepted`/`rejected` counted
from `qc_final_judgment`, and `0` when `accepted + rejected = 0`; the appeal
and completion rates are `0` when the store is empty. -/
theorem quality_kpis_spec (cases : List Case) :
    (judgmentCount cases "Accept Appeal" + judgmentCount cases "Reject Appeal" = 0 →
      (quality_kpis cases).appeal_accept_rate = 0) ∧
    (judgmentCount cases "Accept Appeal" + judgmentCount cases "Reject Appeal" ≠ 0 →
      (quality_kpis cases).appeal_accept_rate =
        (judgmentCount cases "Accept Appeal" : ℚ) /
          ((judgmentCount cases "Accept Appeal" : ℚ) +
            (judgmentCount cases "Reject Appeal" : ℚ)) * 100) ∧
    (cases.length = 0 →
      (quality_kpis cases).appeal_rate = 0 ∧
      (quality_kpis cases).completion_rate = 0) := by
  unfold quality_kpis
  refine ⟨?_, ?_, ?_⟩ <;> intro h <;> simp [h]

/-- Witness for C10 on the empty store. -/
theorem quality_kpis_spec_witness :
    (quality_kpis []).appeal_rate = 0 ∧ (quality_kpis []).completion_rate = 0 :=
  (quality_kpis_spec []).2.2 rfl


/-- C8 (counterexample to the claim as stated): from a one-record upload whose
`auditor` column is empty, bulk self-assignment reaches a store containing a
case with status `"Assigned"` and empty `assigned_to`, because the handler
copies the `auditor` column without checking it. -/
theorem assigned_nonempty_cex :
    ∃ s, Reachable (initStore [recNoAuditor]) s ∧
      ¬ (∀ c ∈ s, c.status ≠ "Unassigned" → c.assigned_to ≠ "") :=
  ⟨batchAssign (initStore [recNoAuditor]),
   Relation.ReflTransGen.single (Step.batch (initStore [recNoAuditor])),
   by decide⟩

/-- C8 (amended).  In every store reachable from an initialized store whose
records carry pairwise-distinct `addressid`s (the spec's uniqueness invariant)
and non-empty original `auditor` values, every case whose status is not
`"Unassigned"` has non-empty `assigned_to`. -/
theorem assigned_nonempty_of_reachable (recs : List RawCase)
    (h0 : ∀ r ∈ recs, r.auditor ≠ "")
    (hnd : (recs.map fun r => r.addressid).Nodup)
    (s : Store) (h : Reachable (initStore recs) s) :
    ∀ c ∈ s, c.status ≠ "Unassigned" → c.assigned_to ≠ "" := by
  have base : StoreInv (initStore recs) := by
    refine ⟨?_, ?_, ?_⟩
    · intro c hc
      obtain ⟨r, hr, rfl⟩ := List.mem_map.mp hc
      exact h0 r hr
    · unfold initStore
      rw [List.map_map]
      have he : ((fun c => c.addressid) ∘ initCase) = fun r => r.addressid :=
        funext fun r => rfl
      rw [he]
      exact hnd
    · intro c hc hst
      obtain ⟨r, hr, rfl⟩ := List.mem_map.mp hc
      exact absurd rfl hst
  have inv : StoreInv s := by
    induction h with
    | refl => exact base
    | tail h1 hstep ih => exact step_preserves_storeInv hstep ih
  exact inv.2.2

/-- Witness for the amended C8: the case of Amy after bulk assignment of the
three-record demo upload. -/
theorem assigned_nonempty_of_reachable_witness :
    demoAssignedCase.assigned_to ≠ "" :=
  assigned_nonempty_of_reachable demoRecs (by decide) (by decide) demoAssigned
    (Relation.ReflTransGen.single (Step.batch (initStore demoRecs)))
    demoAssignedCase (by decide) (by decide)


/-- C5.  A `"Completed"` case (in a store with the spec's unique-`addressid`
invariant) is immutable: any auditor decision aimed at it is rejected with a
`PreconditionError` leaving the store unchanged, and every engine transition
leaves the case itself untouched. -/
theorem completed_case_immutable (s : Store) (i : Nat) (ci : Case)
    (hnd : (s.map fun c => c.addressid).Nodup)
    (hi : s[i]? = some ci) (hC : ci.status = "Completed") :
    (∀ actor : String, ∀ d : Decision, ∀ msg : String,
      auditorDecide s actor ci.addressid d msg = .error .precondition ∧
      decideApply s actor ci.addressid d msg = s) ∧
    (∀ s', Step s s' → s'[i]? = some ci) := by
  have hmem : ci ∈ s := List.getElem?_mem hi
  constructor
  · intro actor d msg
    have hfound : s.find? (fun x => x.addressid == ci.addressid) = some ci := by
      cases hfs : s.find? (fun x => x.addressid == ci.addressid) with
      | none =>
          exact absurd (by simp) (List.find?_eq_none.mp hfs ci hmem)
      | some c0 =>
          have hc0mem : c0 ∈ s := List.mem_of_find?_eq_some hfs
          have hc0id : c0.addressid = ci.addressid := by
            simpa using List.find?_some hfs
          rw [eq_of_mem_of_nodup_ids hnd hc0mem hmem hc0id]
    have herr : auditorDecide s actor ci.addressid d msg = .error .precondition := by
      unfold auditorDecide
      rw [hfound]
      dsimp only
      by_cases hA : ci.assigned_to ≠ actor
      · rw [if_pos hA]
      · rw [if_neg hA, if_pos (Or.inr hC)]
    exact ⟨herr, decideApply_eq_of_error herr⟩
  · intro s' hstep
    cases hstep with
    | batch =>
        rw [batchAssign_eq_map, List.getElem?_map, hi, Option.map_some']
        rw [if_neg (by rw [hC]; decide)]
    | manual target ids s' hsel hok =>
        obtain ⟨ht, rfl⟩ := manualAssign_ok hok
        rw [List.getElem?_map, hi, Option.map_some']
        have hne : ¬ (ids.contains ci.addressid = true) := by
          intro hcon
          obtain ⟨c', hc'mem, hc'id, hc'st⟩ := hsel ci.addressid (by simpa using hcon)
          rw [eq_of_mem_of_nodup_ids hnd hc'mem hmem hc'id] at hc'st
          rw [hC] at hc'st
          exact absurd hc'st (by decide)
        rw [if_neg hne]
    | decide actor id d msg s' hactor hok =>
        obtain ⟨c0, hf, ha, h1, h2, hcases⟩ := auditorDecide_ok hok
        have hc0mem : c0 ∈ s := List.mem_of_find?_eq_some hf
        have hc0id : c0.addressid = id := by simpa using List.find?_some hf
        have hne : ¬ ((ci.addressid == id) = true) := by
          intro hcon
          have hciid : ci.addressid = id := by simpa using hcon
          rw [eq_of_mem_of_nodup_ids hnd hc0mem hmem (by rw [hc0id, hciid])] at h2
          exact h2 hC
        rcases hcases with ⟨-, rfl⟩ | ⟨-, hmsg, rfl⟩ <;>
          rw [List.getElem?_map, hi, Option.map_some', if_neg hne]
    | qc id j note qcUser s' hok =>
        obtain ⟨c0, hf, rfl⟩ := qcJudge_ok hok
        have hc0mem : c0 ∈ s := List.mem_of_find?_eq_some hf
        have hp := List.find?_some hf
        rw [Bool.and_eq_true] at hp
        have hc0st : c0.status = "Appealed" := by simpa using hp.1
        have hc0id : c0.addressid = id := by simpa using hp.2
        have hne : ¬ ((ci.addressid == id) = true) := by
          intro hcon
          have hciid : ci.addressid = id := by simpa using hcon
          rw [eq_of_mem_of_nodup_ids hnd hc0mem hmem (by rw [hc0id, hciid])] at hc0st
          rw [hC] at hc0st
          exact absurd hc0st (by decide)
        rw [List.getElem?_map, hi, Option.map_some', if_neg hne]

/-- Witness for C5 on a concrete one-case completed store: spec §8
Scenario 4. -/
theorem completed_case_immutable_witness :
    auditorDecide completedStore "Amy" "A1" .agree "again" = .error .precondition ∧
    decideApply completedStore "Amy" "A1" .agree "again" = completedStore :=
  (completed_case_immutable completedStore 0 completedCase (by decide) rfl rfl).1
    "Amy" .agree "again"

end QCReview
